import Mathlib

/-
Verification development for the organize-crates repository.

The repository contains two Python tools:
  * organize_crates.py  - shards a flat directory of archive files into a
    two-level bucket hierarchy (get_letter_groups, get_target_directory,
    create_directories, organize_files);
  * organize_metadata.py - reconciles a line-delimited metadata index
    against the (possibly sharded) archive mirror, writing a sidecar
    metadata file next to each matched archive (find_crate_file,
    process_metadata_file, organize_metadata).

This file gives a shallow embedding of both tools.  Pure string
computations are translated directly.  Filesystem effects are modelled by
explicit state passing: a mirror tree is a list of (directory, filename,
content) records in walk order, and a write is an update of that list
plus an entry in a write log.  External library calls are modelled as
follows: json.loads is an oracle parameter (a function from the raw line
to an optional JSON value), json.dump with indent=2 is the function
dumpJson below, os.path.join/dirname are kept structural (directory and
filename are separate components), and Python str.upper / str.isdigit are
modelled on ASCII characters (the spec fixes the input alphabet to byte
strings).
-/

set_option maxHeartbeats 4000000

/-- Model of Python string.ascii_uppercase as a list of characters. -/
def ascii_uppercase : List Char := "ABCDEFGHIJKLMNOPQRSTUVWXYZ".data

/-- One entry of a second-level group list: the tuple
(group_name, group_prefix, group_range) built by get_letter_groups. -/
structure LetterGroup where
  group_name : String
  group_pfx : String
  group_range : List Char
deriving DecidableEq

/-- Second-level groups for one first-level letter, as built by the loop in
get_letter_groups: the chunk starts are range(0, 26, 4), each chunk is
second_letters[i:i+4], empty chunks are dropped, and the group name is
first_letter + start + "-" + first_letter + end. -/
def groups_for_letter (first_letter : Char) : List LetterGroup :=
  (((List.range 26).filter (fun i => i % 4 == 0)).map
      (fun i => (ascii_uppercase.drop i).take 4)).filterMap
    (fun chunk =>
      match chunk with
      | [] => none
      | c0 :: cs => some
          { group_name := String.mk [first_letter, c0, '-', first_letter, (c0 :: cs).getLastD c0]
            group_pfx := String.mk [first_letter]
            group_range := c0 :: cs })

/-- Digit bands for the "0-9" first level, as written literally in
get_letter_groups. -/
def number_groups : List LetterGroup :=
  [ { group_name := "0-2", group_pfx := "", group_range := ['0', '1', '2'] },
    { group_name := "3-5", group_pfx := "", group_range := ['3', '4', '5'] },
    { group_name := "6-9", group_pfx := "", group_range := ['6', '7', '8', '9'] } ]

/-- Model of get_letter_groups: the dict letter_groups as an association
list, one entry per uppercase letter (in order), then "0-9", then
"OTHER". -/
def get_letter_groups : List (String × List LetterGroup) :=
  (ascii_uppercase.map (fun fl => (String.mk [fl], groups_for_letter fl)))
    ++ [("0-9", number_groups),
        ("OTHER", [{ group_name := "OTHER", group_pfx := "", group_range := [] }])]

/-- Dict access letter_groups[key] (the keys used by the code are always
present; a missing key yields the empty list). -/
def lookup_groups (key : String) : List LetterGroup :=
  ((get_letter_groups.find? (fun e => e.1 == key)).map Prod.snd).getD []

/-- Placeholder group used to model the (unreachable) indexing of an empty
group list. -/
def empty_group : LetterGroup :=
  { group_name := "", group_pfx := "", group_range := [] }

/-- Second-level directory choice for a letter first level: the body of the
branch "if first_level in string.ascii_uppercase" of get_target_directory.
If the (already uppercased) second character is an ASCII uppercase letter,
the first group whose group_range contains it is returned; otherwise, and
when no group matches, the first group is the default. -/
def letter_second_level (first_level : String) (second_char : Char) : String :=
  let groups := lookup_groups first_level
  if second_char ∈ ascii_uppercase then
    match groups.find? (fun g => g.group_range.contains second_char) with
    | some g => g.group_name
    | none => (groups.headD empty_group).group_name
  else (groups.headD empty_group).group_name

/-- Second-level directory choice for a digit first character: the branch
"elif first_level == 0-9" of get_target_directory, with the first number
group as the default. -/
def digit_second_level (first_char : Char) : String :=
  match (lookup_groups "0-9").find? (fun g => g.group_range.contains first_char) with
  | some g => g.group_name
  | none => ((lookup_groups "0-9").headD empty_group).group_name

/-- Model of get_target_directory.  The result is the pair
(first-level directory, second-level directory); the source returns
os.path.join(base_dir, first, second), and the base_dir prefix is elided
here since the join is external path glue.  Python str.upper and
str.isdigit are modelled on the ASCII alphabet fixed by the spec. -/
def get_target_directory (filename : String) : String × String :=
  match filename.data with
  | [] => ("OTHER", "OTHER")
  | c :: rest =>
    let first_char := c.toUpper
    if first_char ∈ ascii_uppercase then
      let second_char := match rest with
        | [] => 'A'
        | c2 :: _ => c2.toUpper
      (String.mk [first_char], letter_second_level (String.mk [first_char]) second_char)
    else if first_char.isDigit then
      ("0-9", digit_second_level first_char)
    else ("OTHER", "OTHER")

/-- Reduction of get_target_directory on a filename of length at least
two. -/
theorem gtd_cons (c1 c2 : Char) (rest : List Char) :
    get_target_directory ⟨c1 :: c2 :: rest⟩ =
      if c1.toUpper ∈ ascii_uppercase then
        (String.mk [c1.toUpper], letter_second_level (String.mk [c1.toUpper]) c2.toUpper)
      else if c1.toUpper.isDigit then ("0-9", digit_second_level c1.toUpper)
      else ("OTHER", "OTHER") := rfl

/-- Reduction of get_target_directory on a filename of length one. -/
theorem gtd_single (c1 : Char) :
    get_target_directory ⟨[c1]⟩ =
      if c1.toUpper ∈ ascii_uppercase then
        (String.mk [c1.toUpper], letter_second_level (String.mk [c1.toUpper]) 'A')
      else if c1.toUpper.isDigit then ("0-9", digit_second_level c1.toUpper)
      else ("OTHER", "OTHER") := rfl

/-- C1: the sharding classifier is a total deterministic function (it is a
Lean function, so determinism and freedom from side effects are inherent
in the embedding): every string is mapped to a bucket pair, and the empty
string is mapped to OTHER/OTHER. -/
theorem classifier_total_and_empty_is_other :
    (∀ filename : String, ∃ bucket : String × String,
        get_target_directory filename = bucket) ∧
    get_target_directory "" = ("OTHER", "OTHER") :=
  ⟨fun filename => ⟨get_target_directory filename, rfl⟩, by decide⟩

/-- C3: the classifier maps the three example inputs of the spec as
stated: a leading digit 7 lands in band 6-9, Abc lands in A/AA-AD, and
zyx lands in Z/ZY-ZZ (the chunk of size at most 4 containing Y). -/
theorem classifier_spec_examples :
    get_target_directory "7z-1.0.tar" = ("0-9", "6-9") ∧
    get_target_directory "Abc.bin" = ("A", "AA-AD") ∧
    get_target_directory "zyx" = ("Z", "ZY-ZZ") := by decide

/-- C2: for every first-level letter, every uppercase letter lies in the
group_range of exactly one second-level group, and every digit lies in
exactly one of the three digit bands. -/
theorem letter_groups_partition :
    (∀ fl ∈ ascii_uppercase, ∀ c ∈ ascii_uppercase,
        (lookup_groups (String.mk [fl])).countP
          (fun g => g.group_range.contains c) = 1) ∧
    (∀ d ∈ ['0', '1', '2', '3', '4', '5', '6', '7', '8', '9'],
        (lookup_groups "0-9").countP
          (fun g => g.group_range.contains d) = 1) := by decide

/-- Witness for C2 at the concrete input first level A, second letter B,
and digit 7. -/
theorem letter_groups_partition_witness :
    (lookup_groups "A").countP (fun g => g.group_range.contains 'B') = 1 ∧
    (lookup_groups "0-9").countP (fun g => g.group_range.contains '7') = 1 :=
  ⟨letter_groups_partition.1 'A' (by decide) 'B' (by decide),
   letter_groups_partition.2 '7' (by decide)⟩

/-- Helper shared by several proofs: the partition property of the group
table (every uppercase letter in exactly one group per letter key, every
digit in exactly one band). -/
theorem groups_partition_helper :
    (∀ fl ∈ ascii_uppercase, ∀ c ∈ ascii_uppercase,
        (lookup_groups (String.mk [fl])).countP
          (fun g => g.group_range.contains c) = 1) ∧
    (∀ d ∈ ['0', '1', '2', '3', '4', '5', '6', '7', '8', '9'],
        (lookup_groups "0-9").countP
          (fun g => g.group_range.contains d) = 1) := by decide

/-- Helper: every character in a group_range of a letter key of the table
is an ASCII uppercase letter. -/
theorem range_chars_upper :
    ∀ fl ∈ ascii_uppercase, ∀ g ∈ lookup_groups (String.mk [fl]),
      ∀ c ∈ g.group_range, c ∈ ascii_uppercase := by decide

/-- Helper: find? on a list whose match count is at most one returns any
member that satisfies the predicate. -/
theorem find?_eq_of_countP_le_one {α : Type} {p : α → Bool} :
    ∀ {l : List α}, l.countP p ≤ 1 → ∀ {a : α}, a ∈ l → p a = true →
      l.find? p = some a := by
  intro l
  induction l with
  | nil => intro _ a ha _; exact absurd ha (List.not_mem_nil a)
  | cons b t ih =>
    intro hle a ha hpa
    cases hb : p b with
    | true =>
      have hab : a = b := by
        rcases List.mem_cons.mp ha with h1 | h2
        · exact h1
        · exfalso
          have hpos : 0 < t.countP p := List.countP_pos_iff.mpr ⟨a, h2, hpa⟩
          rw [List.countP_cons_of_pos _ _ hb] at hle
          omega
      subst hab
      simp [List.find?_cons, hb]
    | false =>
      have ha' : a ∈ t := by
        rcases List.mem_cons.mp ha with h1 | h2
        · subst h1; rw [hpa] at hb; exact absurd hb (by simp)
        · exact h2
      have hle' : t.countP p ≤ 1 := by
        rw [List.countP_cons_of_neg _ _ (by simp [hb])] at hle
        exact hle
      rw [List.find?_cons, hb]
      exact ih hle' ha' hpa

/-- C4: for a filename whose uppercased first character is a letter, the
uppercased second character selects the second-level chunk containing it
(when the filename has length at least two); a length-one filename
behaves exactly as if the second character were A; and a non-letter
second character falls back to the first chunk of that first level. -/
theorem letter_second_level_selection (c1 c2 : Char) (rest : List Char)
    (h : c1.toUpper ∈ ascii_uppercase) :
    (∀ g ∈ lookup_groups (String.mk [c1.toUpper]), c2.toUpper ∈ g.group_range →
        get_target_directory ⟨c1 :: c2 :: rest⟩ =
          (String.mk [c1.toUpper], g.group_name)) ∧
    get_target_directory ⟨[c1]⟩ = get_target_directory ⟨[c1, 'A']⟩ ∧
    (c2.toUpper ∉ ascii_uppercase →
        get_target_directory ⟨c1 :: c2 :: rest⟩ =
          (String.mk [c1.toUpper],
            ((lookup_groups (String.mk [c1.toUpper])).headD empty_group).group_name)) := by
  refine ⟨?_, ?_, ?_⟩
  · intro g hg hmem
    have h2 : c2.toUpper ∈ ascii_uppercase :=
      range_chars_upper c1.toUpper h g hg c2.toUpper hmem
    have hcount : (lookup_groups (String.mk [c1.toUpper])).countP
        (fun g => g.group_range.contains c2.toUpper) = 1 :=
      groups_partition_helper.1 c1.toUpper h c2.toUpper h2
    have hpg : g.group_range.contains c2.toUpper = true := List.elem_iff.mpr hmem
    have hfind := find?_eq_of_countP_le_one (le_of_eq hcount) hg hpg
    rw [gtd_cons, if_pos h]
    simp only [letter_second_level]
    rw [if_pos h2, hfind]
  · rw [gtd_single, gtd_cons]
    have hA : ('A' : Char).toUpper = 'A' := by decide
    rw [hA]
  · intro h2
    rw [gtd_cons, if_pos h]
    simp only [letter_second_level]
    rw [if_neg h2]

/-- Witness for C4 at the concrete inputs xb (second letter selects the
chunk), x (length one), and x1 (non-letter second character falls back to
the first chunk XA-XD). -/
theorem letter_second_level_selection_witness :
    get_target_directory "xb" = ("X", "XA-XD") ∧
    get_target_directory "x" = get_target_directory "xA" ∧
    get_target_directory "x1" = ("X", "XA-XD") :=
  ⟨(letter_second_level_selection 'x' 'b' [] (by decide)).1
      { group_name := "XA-XD", group_pfx := "X", group_range := ['A', 'B', 'C', 'D'] }
      (by decide) (by decide),
   (letter_second_level_selection 'x' 'b' [] (by decide)).2.1,
   (letter_second_level_selection 'x' '1' [] (by decide)).2.2 (by decide)⟩

/-- State of the crate base directory for organize_files: the immediate
(top-level) file entries of the base directory, and the files already
placed in second-level buckets, as (first level, second level, filename)
records.  Directories created by create_directories are not file entries
and are therefore not part of top (os.listdir + os.path.isfile filters
them out in the source). -/
structure CrateFS where
  top : List String
  sharded : List (String × String × String)
deriving DecidableEq

/-- Model of organize_files.  The snapshot of candidates is the list of
immediate file entries; move_file is modelled by the oracle moveOk
(shutil.move either succeeds or raises, in which case the file is counted
as failed and stays at top level).  In dry-run mode nothing moves and
success_count stays 0.  The result is (new state, success_count,
total_files). -/
def organize_files (moveOk : String → Bool) (st : CrateFS) (dry_run : Bool) :
    CrateFS × Nat × Nat :=
  let files := st.top
  let total_files := files.length
  if dry_run then (st, 0, total_files)
  else
    let success_count := files.countP moveOk
    let st2 : CrateFS :=
      { top := files.filter (fun f => ! moveOk f)
        sharded := st.sharded ++ (files.filter moveOk).map
          (fun f =>
            let bucket := get_target_directory f
            (bucket.1, bucket.2, f)) }
    (st2, success_count, total_files)

/-- C5: the relocator returns success and total counts with success at
most total, total is the number of top-level file entries at enumeration
time, and after a fully successful run the top level is empty, so any
second run processes zero files and returns the state unchanged with
counts (0, 0). -/
theorem relocator_counts_and_idempotence (moveOk : String → Bool) (st : CrateFS) :
    (organize_files moveOk st false).2.1 ≤ (organize_files moveOk st false).2.2 ∧
    (organize_files moveOk st false).2.2 = st.top.length ∧
    ((organize_files moveOk st false).2.1 = (organize_files moveOk st false).2.2 →
      ∀ moveOk2 : String → Bool,
        organize_files moveOk2 (organize_files moveOk st false).1 false =
          ((organize_files moveOk st false).1, 0, 0)) := by
  refine ⟨List.countP_le_length moveOk, rfl, ?_⟩
  intro hfull moveOk2
  have hall : ∀ f ∈ st.top, moveOk f = true := List.countP_eq_length.mp hfull
  have htop : (organize_files moveOk st false).1.top = [] := by
    simp only [organize_files]
    exact List.filter_eq_nil_iff.mpr (fun f hf => by simp [hall f hf])
  generalize hg : (organize_files moveOk st false).1 = st1 at htop ⊢
  obtain ⟨t, sh⟩ := st1
  simp only [CrateFS.mk.injEq] at htop ⊢
  subst htop
  simp [organize_files]

/-- Witness for C5: moving the single file a.crate with an oracle that
always succeeds, then rerunning the relocator on the resulting state,
processes zero files and returns (0, 0). -/
theorem relocator_counts_and_idempotence_witness :
    organize_files (fun _ => true)
        ((organize_files (fun _ => true) { top := ["a.crate"], sharded := [] } false).1)
        false =
      ((organize_files (fun _ => true) { top := ["a.crate"], sharded := [] } false).1, 0, 0) :=
  (relocator_counts_and_idempotence (fun _ => true)
      { top := ["a.crate"], sharded := [] }).2.2 (by decide) (fun _ => true)

/-- JSON values, the model of the objects produced by json.loads (Python
dicts are association lists in insertion order; numbers are modelled as
integers, the only numeric values the claims exercise). -/
inductive Json where
  | null
  | bool (b : Bool)
  | num (n : Int)
  | str (s : String)
  | arr (xs : List Json)
  | obj (kvs : List (String × Json))

/-- Indentation of n spaces. -/
def spaces (n : Nat) : String := String.mk (List.replicate n ' ')

/-- Escaping of one character inside a JSON string literal (the escapes
json.dump uses for the characters appearing in this development). -/
def escape_char (c : Char) : List Char :=
  if c == '\\' then ['\\', '\\']
  else if c == '"' then ['\\', '"']
  else if c == '\n' then ['\\', 'n']
  else if c == '\t' then ['\\', 't']
  else if c == '\r' then ['\\', 'r']
  else [c]

/-- JSON string literal quoting. -/
def json_quote (s : String) : String :=
  String.mk ('"' :: (s.data.flatMap escape_char ++ ['"']))

mutual

/-- Model of json.dump(value, f, indent=2): the serialization Python
produces with a two-space indent step, where ind is the current
indentation width. -/
def dumpJson (ind : Nat) : Json → String
  | .null => "null"
  | .bool true => "true"
  | .bool false => "false"
  | .num n => toString n
  | .str s => json_quote s
  | .arr [] => "[]"
  | .arr (x :: xs) => "[\n" ++ dumpArrItems ind (x :: xs) ++ "\n" ++ spaces ind ++ "]"
  | .obj [] => "\x7b\x7d"
  | .obj (kv :: kvs) => "\x7b\n" ++ dumpObjItems ind (kv :: kvs) ++ "\n" ++ spaces ind ++ "\x7d"

/-- Array items of the indent=2 serialization, comma-and-newline
separated. -/
def dumpArrItems (ind : Nat) : List Json → String
  | [] => ""
  | [x] => spaces (ind + 2) ++ dumpJson (ind + 2) x
  | x :: y :: xs =>
      spaces (ind + 2) ++ dumpJson (ind + 2) x ++ ",\n" ++ dumpArrItems ind (y :: xs)

/-- Object items of the indent=2 serialization, with the key-value
separator ": ". -/
def dumpObjItems (ind : Nat) : List (String × Json) → String
  | [] => ""
  | [kv] => spaces (ind + 2) ++ json_quote kv.1 ++ ": " ++ dumpJson (ind + 2) kv.2
  | kv :: kv2 :: kvs =>
      spaces (ind + 2) ++ json_quote kv.1 ++ ": " ++ dumpJson (ind + 2) kv.2 ++ ",\n"
        ++ dumpObjItems ind (kv2 :: kvs)

end

/-- Python str() conversion used by the f-strings that build the expected
archive filename and the sidecar filename (versions are strings in
practice; the remaining cases keep the function total). -/
def pyStr : Json → String
  | .str s => s
  | .num n => toString n
  | .bool true => "True"
  | .bool false => "False"
  | .null => "None"
  | .arr xs => dumpJson 0 (.arr xs)
  | .obj kvs => dumpJson 0 (.obj kvs)

/-- Python truthiness test on a JSON value, used by "if not version". -/
def json_falsy : Json → Bool
  | .null => true
  | .bool b => ! b
  | .num n => n == 0
  | .str s => s == ""
  | .arr xs => xs.isEmpty
  | .obj kvs => kvs.isEmpty

/-- Model of dict.get(key): lookup in an object; get on a non-dict raises
AttributeError, which the per-line handler turns into a skip, so none is
returned for every non-object value. -/
def json_get (j : Json) (key : String) : Option Json :=
  match j with
  | .obj kvs => (kvs.find? (fun kv => kv.1 == key)).map (fun kv => kv.2)
  | _ => none

/-- Oracle type standing for json.loads applied to one line: none models
a json.JSONDecodeError. -/
abbrev JParse := String → Option Json

/-- One file of the mirror tree: its directory path, its filename, and
its content.  The list order of a MirrorFS models os.walk order. -/
structure FSFile where
  dir : String
  name : String
  content : String
deriving DecidableEq

/-- Mirror-tree state: the files present (in walk order, writes of new
files append) and the log of the write operations performed. -/
structure MirrorFS where
  files : List FSFile
  wlog : List FSFile
deriving DecidableEq

/-- Expected archive filename for a crate name and version object. -/
def expected_crate_name (crate_name : String) (version : Json) : String :=
  crate_name ++ "-" ++ pyStr version ++ ".crate"

/-- Sidecar filename for a crate name and version object. -/
def sidecar_name (crate_name : String) (version : Json) : String :=
  crate_name ++ "-" ++ pyStr version ++ ".metadata.json"

/-- Model of find_crate_file: recursive walk of the mirror tree returning
the first file whose name equals the expected filename (the source
returns the joined path; here the entry itself, whose dir component is
os.path.dirname of that path). -/
def find_crate_file (crate_name : String) (version : Json) (files : List FSFile) :
    Option FSFile :=
  files.find? (fun f => f.name == expected_crate_name crate_name version)

/-- Filesystem write with open(path, w): if the file exists its content
is replaced, otherwise the file is created; either way the operation is
recorded in the write log. -/
def fs_write (fs : MirrorFS) (d n c : String) : MirrorFS :=
  { files :=
      if fs.files.any (fun f => f.dir == d && f.name == n) then
        fs.files.map (fun f =>
          if f.dir == d && f.name == n then { dir := d, name := n, content := c } else f)
      else fs.files ++ [{ dir := d, name := n, content := c }]
    wlog := fs.wlog ++ [{ dir := d, name := n, content := c }] }

/-- Model of Python str.strip() for a line (whitespace at both ends). -/
def py_strip (s : String) : String :=
  ⟨((s.data.dropWhile Char.isWhitespace).reverse.dropWhile Char.isWhitespace).reverse⟩

/-- Opening brace character. -/
def lbrace : Char := Char.ofNat 123

/-- Closing brace character. -/
def rbrace : Char := Char.ofNat 125

/-- Structural candidate filter of process_metadata_file: the stripped
line starts with an opening brace and ends with a closing brace. -/
def line_candidate (line : String) : Bool :=
  match (py_strip line).data, (py_strip line).data.getLast? with
  | c :: _, some d => c == lbrace && d == rbrace
  | _, _ => false

/-- Final stage of the per-line loop of process_metadata_file: the
record has a version and was counted; a missing archive is a logged skip
contributing (0, 1), a match contributes (1, 1) and, outside dry-run
mode, writes the pretty-printed record to the sidecar path beside the
matched archive.  The loop body of the source is split into the stages
process_found / process_version / process_parsed / process_line to keep
every scrutinee a function argument. -/
def process_found (crate_name : String) (dry_run : Bool) (fs : MirrorFS)
    (metadata version : Json) : Option FSFile → MirrorFS × Nat × Nat
  | none => (fs, 0, 1)
  | some crate_entry =>
    if dry_run then (fs, 1, 1)
    else
      (fs_write fs crate_entry.dir (sidecar_name crate_name version)
        (dumpJson 0 metadata), 1, 1)

/-- Stage of the per-line loop after the version field has been read:
a falsy version is skipped without counting, otherwise the record is
counted and the archive resolved. -/
def process_version (crate_name : String) (dry_run : Bool) (fs : MirrorFS)
    (metadata : Json) : Option Json → MirrorFS × Nat × Nat
  | none => (fs, 0, 0)
  | some version =>
    if json_falsy version then (fs, 0, 0)
    else
      process_found crate_name dry_run fs metadata version
        (find_crate_file crate_name version fs.files)

/-- Stage of the per-line loop after json.loads: a parse failure is
logged and skipped, otherwise the vers field is extracted. -/
def process_parsed (crate_name : String) (dry_run : Bool) (fs : MirrorFS) :
    Option Json → MirrorFS × Nat × Nat
  | none => (fs, 0, 0)
  | some metadata =>
    process_version crate_name dry_run fs metadata (json_get metadata "vers")

def process_line (jp : JParse) (crate_name : String) (dry_run : Bool)
    (fs : MirrorFS) (line : String) : MirrorFS × Nat × Nat :=
  if (py_strip line).data = [] then (fs, 0, 0)
  else if ¬ line_candidate line then (fs, 0, 0)
  else process_parsed crate_name dry_run fs (jp line)

/-- The per-line loop of process_metadata_file over all lines of a file,
accumulating the success and total counters in order. -/
def process_lines (jp : JParse) (crate_name : String) (dry_run : Bool) :
    List String → MirrorFS → MirrorFS × Nat × Nat
  | [], fs => (fs, 0, 0)
  | l :: rest, fs =>
    let r1 := process_line jp crate_name dry_run fs l
    let r2 := process_lines jp crate_name dry_run rest r1.1
    (r2.1, r1.2.1 + r2.2.1, r1.2.2 + r2.2.2)

/-- One metadata file of the index namespace: its base name (the crate
name) and its lines. -/
structure IndexFile where
  fname : String
  lines : List String
deriving DecidableEq

/-- Model of process_metadata_file: .git and config.json base names are
skipped with (0, 0) (the directory check of the source cannot trigger
here since the inputs are files), otherwise every line is processed in
order. -/
def process_metadata_file (jp : JParse) (mf : IndexFile) (fs : MirrorFS)
    (dry_run : Bool) : MirrorFS × Nat × Nat :=
  if mf.fname == ".git" || mf.fname == "config.json" then (fs, 0, 0)
  else process_lines jp mf.fname dry_run mf.lines fs

/-- One directory of the index namespace walk: its path (root in the
source) and the metadata files directly inside it. -/
structure IndexDir where
  root : String
  files : List IndexFile
deriving DecidableEq

/-- Model of Python substring containment (the in operator on strings). -/
def py_in (needle hay : String) : Bool := decide (needle.data <:+: hay.data)

/-- The directory exclusion list of organize_metadata. -/
def exclude_dirs : List String :=
  [".git", ".venv", "site-packages", "pip", "python", "__pycache__"]

/-- Directory skip test of the walk: any exclusion string occurring as a
substring of the directory path skips the whole directory. -/
def dir_excluded (root : String) : Bool := exclude_dirs.any (fun d => py_in d root)

/-- The non-metadata filename suffixes skipped by the walk. -/
def skip_suffixes : List String :=
  [".py", ".pyc", ".pyd", ".dll", ".exe", ".bat", ".sh", ".md", ".txt", ".html"]

/-- File skip test of the walk: the literal name config.json, or any of
the known non-metadata suffixes. -/
def file_skipped (fname : String) : Bool :=
  fname == "config.json" || skip_suffixes.any (fun s => decide (s.data <:+ fname.data))

/-- Enumeration phase of organize_metadata: walk every index directory,
skip excluded directories wholesale, filter skipped filenames, and
return the remaining (root, metadata file) pairs in walk order. -/
def collect_metadata_files (tree : List IndexDir) : List (String × IndexFile) :=
  tree.flatMap (fun d =>
    if dir_excluded d.root then []
    else (d.files.filter (fun f => ! file_skipped f.fname)).map (fun f => (d.root, f)))

/-- Processing phase of organize_metadata over the collected files,
modelling the executor.map + sequential aggregation of the source as a
fold in collection order. -/
def process_all (jp : JParse) (dry_run : Bool) :
    List (String × IndexFile) → MirrorFS → MirrorFS × Nat × Nat
  | [], fs => (fs, 0, 0)
  | mf :: rest, fs =>
    let r1 := process_metadata_file jp mf.2 fs dry_run
    let r2 := process_all jp dry_run rest r1.1
    (r2.1, r1.2.1 + r2.2.1, r1.2.2 + r2.2.2)

/-- Model of organize_metadata: enumeration followed by processing,
returning the final mirror state and (success_count, total_versions). -/
def organize_metadata (jp : JParse) (tree : List IndexDir) (fs : MirrorFS)
    (dry_run : Bool) : MirrorFS × Nat × Nat :=
  process_all jp dry_run (collect_metadata_files tree) fs

/-- C10: the walk exclusion of the indexer is substring containment over
the whole directory path: whenever one of the six exclusion strings
occurs anywhere inside a directory path, no file of that directory is
enumerated.  In particular the exclusion string pip is contained in the
directory name pipeline and python in python-utils, so files under such
directories are silently excluded. -/
theorem walk_exclusion_is_substring_containment (tree : List IndexDir)
    (root : String) (mf : IndexFile)
    (h : ∃ d ∈ exclude_dirs, py_in d root = true) :
    ((root, mf) ∉ collect_metadata_files tree) ∧
    py_in "pip" "pipeline" = true ∧
    py_in "python" "python-utils" = true := by
  refine ⟨?_, by decide, by decide⟩
  intro hmem
  obtain ⟨d, hd, hin⟩ := List.mem_flatMap.mp hmem
  by_cases hex : dir_excluded d.root
  · rw [if_pos hex] at hin
    exact absurd hin (List.not_mem_nil _)
  · rw [if_neg hex] at hin
    obtain ⟨f, _, hf⟩ := List.mem_map.mp hin
    have hroot : d.root = root := congrArg Prod.fst hf
    apply hex
    rw [hroot]
    obtain ⟨e, he, hine⟩ := h
    exact List.any_eq_true.mpr ⟨e, he, hine⟩

/-- Witness for C10: a single-directory tree rooted at pipeline (which
contains the exclusion string pip) enumerates none of its files. -/
theorem walk_exclusion_is_substring_containment_witness :
    (("pipeline", ({ fname := "serde", lines := [] } : IndexFile)) ∉
        collect_metadata_files
          [{ root := "pipeline", files := [{ fname := "serde", lines := [] }] }]) ∧
    py_in "pip" "pipeline" = true ∧
    py_in "python" "python-utils" = true :=
  walk_exclusion_is_substring_containment
    [{ root := "pipeline", files := [{ fname := "serde", lines := [] }] }]
    "pipeline" { fname := "serde", lines := [] } ⟨"pip", by decide, by decide⟩

/-- Helper: a structurally well-formed line whose JSON parse fails is a
no-op of the per-line loop. -/
theorem process_line_malformed (jp : JParse) (crate_name : String) (dry_run : Bool)
    (fs : MirrorFS) (bad : String) (h1 : (py_strip bad).data ≠ [])
    (h3 : jp bad = none) :
    process_line jp crate_name dry_run fs bad = (fs, 0, 0) := by
  unfold process_line
  rw [if_neg h1]
  by_cases h2 : line_candidate bad
  · rw [if_neg (by simpa using h2), h3]
    rfl
  · rw [if_pos (by simpa using h2)]

/-- Helper: appending behaviour of the per-line loop. -/
theorem process_lines_drop_bad (jp : JParse) (crate_name : String) (dry_run : Bool)
    (before after : List String) (bad : String) (h1 : (py_strip bad).data ≠ [])
    (h3 : jp bad = none) :
    ∀ fs : MirrorFS,
      process_lines jp crate_name dry_run (before ++ bad :: after) fs =
        process_lines jp crate_name dry_run (before ++ after) fs := by
  induction before with
  | nil =>
    intro fs
    show process_lines jp crate_name dry_run (bad :: after) fs = _
    simp [process_lines, process_line_malformed jp crate_name dry_run fs bad h1 h3]
  | cons b bs ih =>
    intro fs
    simp only [List.cons_append, process_lines, List.append_eq]
    rw [ih]

/-- C8: a line that fails JSON parsing (after passing the structural
brace filter) is skipped in isolation: deleting it from its file changes
nothing in the outcome, neither for the remaining lines of the same file
nor for any other file of the batch. -/
theorem malformed_line_isolation (jp : JParse) (crate_name : String) (dry_run : Bool)
    (fs : MirrorFS) (before after : List String) (bad : String)
    (h1 : (py_strip bad).data ≠ []) (h2 : line_candidate bad = true)
    (h3 : jp bad = none) :
    (process_lines jp crate_name dry_run (before ++ bad :: after) fs =
      process_lines jp crate_name dry_run (before ++ after) fs) ∧
    (∀ (pre post : List (String × IndexFile)) (root : String),
      process_all jp dry_run
          (pre ++ (root, { fname := crate_name, lines := before ++ bad :: after }) :: post) fs =
        process_all jp dry_run
          (pre ++ (root, { fname := crate_name, lines := before ++ after }) :: post) fs) := by
  constructor
  · exact process_lines_drop_bad jp crate_name dry_run before after bad h1 h3 fs
  · intro pre post root
    induction pre generalizing fs with
    | nil =>
      simp only [List.nil_append, process_all, process_metadata_file]
      by_cases hskip : (crate_name == ".git" || crate_name == "config.json") = true
      · rw [if_pos hskip, if_pos hskip]
      · rw [if_neg hskip, if_neg hskip]
        rw [process_lines_drop_bad jp crate_name dry_run before after bad h1 h3 fs]
    | cons p ps ih =>
      simp only [List.cons_append, process_all, List.append_eq]
      rw [ih]

/-- Witness for C8: a parse-failing brace line between two files with no
qualifying content changes nothing. -/
theorem malformed_line_isolation_witness :
    process_lines (fun _ => none) "serde" false (["x"] ++ "\x7b\x7d" :: []) { files := [], wlog := [] } =
      process_lines (fun _ => none) "serde" false (["x"] ++ []) { files := [], wlog := [] } :=
  (malformed_line_isolation (fun _ => none) "serde" false { files := [], wlog := [] }
      ["x"] [] "\x7b\x7d" (by decide) (by decide) rfl).1

/-- Sidecar-name test used by the invariance proofs: a filename ending in
.metadata.json. -/
def is_metadata_json (n : String) : Bool := ".metadata.json".data.isSuffixOf n.data

/-- View of a mirror file list with every sidecar-named file removed. -/
def crate_view (files : List FSFile) : List FSFile :=
  files.filter (fun f => ! is_metadata_json f.name)

/-- Bridge between the boolean suffix test and the suffix relation. -/
theorem isSuffixOf_iff_suffix {l1 l2 : List Char} :
    l1.isSuffixOf l2 = true ↔ l1 <:+ l2 := by
  unfold List.isSuffixOf
  rw [List.isPrefixOf_iff_prefix, List.reverse_prefix]

/-- Appending the sidecar suffix always yields a sidecar name. -/
theorem meta_append (x : String) : is_metadata_json (x ++ ".metadata.json") = true := by
  unfold is_metadata_json
  rw [isSuffixOf_iff_suffix, String.data_append]
  exact List.suffix_append _ _

/-- A name ending in .crate is never a sidecar name. -/
theorem crate_not_meta (x : String) : is_metadata_json (x ++ ".crate") = false := by
  refine Bool.eq_false_iff.mpr ?_
  intro h
  unfold is_metadata_json at h
  rw [isSuffixOf_iff_suffix, String.data_append] at h
  obtain ⟨t, ht⟩ := h
  have h1 : (t ++ ".metadata.json".data).getLast? = some 'n' := by
    rw [List.getLast?_append_of_ne_nil _ (by decide)]
    decide
  rw [ht, List.getLast?_append_of_ne_nil _ (by decide)] at h1
  exact absurd h1 (by decide)

/-- find? is unchanged by a filter that keeps every possible match. -/
theorem find?_filter_keep {α : Type} (p q : α → Bool) (l : List α)
    (h : ∀ a, p a = true → q a = true) :
    (l.filter q).find? p = l.find? p := by
  induction l with
  | nil => rfl
  | cons a t ih =>
    cases hp : p a with
    | true =>
      have hq := h a hp
      simp [List.filter_cons, hq, List.find?_cons, hp]
    | false =>
      cases hq : q a with
      | true => simp [List.filter_cons, hq, List.find?_cons, hp, ih]
      | false => simp [List.filter_cons, hq, List.find?_cons, hp, ih]

/-- Names matched by find_crate_file are crate names, never sidecar
names. -/
theorem find_crate_pred_not_meta (crate_name : String) (version : Json) (f : FSFile)
    (hf : (f.name == expected_crate_name crate_name version) = true) :
    (! is_metadata_json f.name) = true := by
  rw [eq_of_beq hf]
  unfold expected_crate_name
  rw [crate_not_meta]
  rfl

/-- find_crate_file depends only on the crate view of the file list. -/
theorem find_crate_file_stable (crate_name : String) (version : Json)
    {l1 l2 : List FSFile} (h : crate_view l1 = crate_view l2) :
    find_crate_file crate_name version l1 = find_crate_file crate_name version l2 := by
  unfold find_crate_file
  rw [← find?_filter_keep _ (fun f => ! is_metadata_json f.name) l1
        (find_crate_pred_not_meta crate_name version),
      ← find?_filter_keep _ (fun f => ! is_metadata_json f.name) l2
        (find_crate_pred_not_meta crate_name version)]
  exact congrArg (List.find? _) h

/-- In-place replacement of a sidecar-named file leaves the crate view of
a file list unchanged. -/
theorem filter_map_write (d n c : String) (hn : is_metadata_json n = true) :
    ∀ l : List FSFile,
      List.filter (fun f => ! is_metadata_json f.name)
          (l.map (fun f =>
            if f.dir == d && f.name == n then { dir := d, name := n, content := c } else f)) =
        List.filter (fun f => ! is_metadata_json f.name) l := by
  intro l
  induction l with
  | nil => rfl
  | cons a t ih =>
    simp only [List.map_cons, List.filter_cons]
    by_cases ha : (a.dir == d && a.name == n) = true
    · have hx : a.dir = d ∧ a.name = n := by simpa using ha
      rw [if_pos ha, ih]
      simp [hn, hx.2]
    · rw [if_neg ha, ih]

/-- fs_write with a sidecar name leaves the crate view unchanged. -/
theorem crate_view_write (fs : MirrorFS) (d n c : String)
    (hn : is_metadata_json n = true) :
    crate_view (fs_write fs d n c).files = crate_view fs.files := by
  simp only [fs_write, crate_view]
  by_cases hx : fs.files.any (fun f => f.dir == d && f.name == n) = true
  · rw [if_pos hx]
    exact filter_map_write d n c hn fs.files
  · rw [if_neg hx, List.filter_append]
    have hone : List.filter (fun f => ! is_metadata_json f.name)
        [({ dir := d, name := n, content := c } : FSFile)] = [] := by
      simp [List.filter_cons, hn]
    rw [hone, List.append_nil]

/-- Per-line simulation invariant: in dry-run mode the state is
untouched, the counters agree with the normal-mode counters over any
state with the same crate view, and a normal-mode step never changes the
crate view. -/
theorem process_found_sim (cn : String) (metadata version : Json)
    (fs1 fs2 : MirrorFS) (h : crate_view fs1.files = crate_view fs2.files)
    (oc : Option FSFile) :
    (process_found cn true fs1 metadata version oc).1 = fs1 ∧
    (process_found cn true fs1 metadata version oc).2 =
      (process_found cn false fs2 metadata version oc).2 ∧
    crate_view ((process_found cn false fs2 metadata version oc).1).files =
      crate_view fs2.files := by
  cases oc with
  | none => exact ⟨rfl, rfl, rfl⟩
  | some ce =>
    refine ⟨rfl, rfl, ?_⟩
    refine crate_view_write fs2 ce.dir (sidecar_name cn version) (dumpJson 0 metadata) ?_
    unfold sidecar_name
    exact meta_append (cn ++ "-" ++ pyStr version)

/-- Version-stage simulation invariant. -/
theorem process_version_sim (cn : String) (metadata : Json)
    (fs1 fs2 : MirrorFS) (h : crate_view fs1.files = crate_view fs2.files)
    (ov : Option Json) :
    (process_version cn true fs1 metadata ov).1 = fs1 ∧
    (process_version cn true fs1 metadata ov).2 =
      (process_version cn false fs2 metadata ov).2 ∧
    crate_view ((process_version cn false fs2 metadata ov).1).files =
      crate_view fs2.files := by
  cases ov with
  | none => exact ⟨rfl, rfl, rfl⟩
  | some version =>
    simp only [process_version]
    by_cases hf : json_falsy version = true
    · rw [if_pos hf, if_pos hf]
      exact ⟨rfl, rfl, rfl⟩
    · rw [if_neg hf, if_neg hf, find_crate_file_stable cn version h]
      exact process_found_sim cn metadata version fs1 fs2 h _

/-- Parse-stage simulation invariant. -/
theorem process_parsed_sim (cn : String) (fs1 fs2 : MirrorFS)
    (h : crate_view fs1.files = crate_view fs2.files) (om : Option Json) :
    (process_parsed cn true fs1 om).1 = fs1 ∧
    (process_parsed cn true fs1 om).2 = (process_parsed cn false fs2 om).2 ∧
    crate_view ((process_parsed cn false fs2 om).1).files = crate_view fs2.files := by
  cases om with
  | none => exact ⟨rfl, rfl, rfl⟩
  | some metadata =>
    simp only [process_parsed]
    exact process_version_sim cn metadata fs1 fs2 h _

/-- Per-line simulation invariant: in dry-run mode the state is
untouched, the counters agree with the normal-mode counters over any
state with the same crate view, and a normal-mode step never changes the
crate view. -/
theorem process_line_sim (jp : JParse) (cn : String) (l : String)
    (fs1 fs2 : MirrorFS) (h : crate_view fs1.files = crate_view fs2.files) :
    (process_line jp cn true fs1 l).1 = fs1 ∧
    (process_line jp cn true fs1 l).2 = (process_line jp cn false fs2 l).2 ∧
    crate_view ((process_line jp cn false fs2 l).1).files = crate_view fs2.files := by
  unfold process_line
  by_cases hb : (py_strip l).data = []
  · rw [if_pos hb, if_pos hb]
    exact ⟨rfl, rfl, rfl⟩
  rw [if_neg hb, if_neg hb]
  by_cases hc : ¬ line_candidate l = true
  · rw [if_pos hc, if_pos hc]
    exact ⟨rfl, rfl, rfl⟩
  rw [if_neg hc, if_neg hc]
  exact process_parsed_sim cn fs1 fs2 h (jp l)

/-- Per-file-content simulation invariant, by induction over the lines. -/
theorem process_lines_sim (jp : JParse) (cn : String) (lines : List String) :
    ∀ fs1 fs2 : MirrorFS, crate_view fs1.files = crate_view fs2.files →
      (process_lines jp cn true lines fs1).1 = fs1 ∧
      (process_lines jp cn true lines fs1).2 =
        (process_lines jp cn false lines fs2).2 ∧
      crate_view ((process_lines jp cn false lines fs2).1).files =
        crate_view fs2.files := by
  induction lines with
  | nil => intro fs1 fs2 h; exact ⟨rfl, rfl, rfl⟩
  | cons l rest ih =>
    intro fs1 fs2 h
    obtain ⟨e1, e2, e3⟩ := process_line_sim jp cn l fs1 fs2 h
    obtain ⟨r1, r2, r3⟩ :=
      ih fs1 ((process_line jp cn false fs2 l).1) (h.trans e3.symm)
    refine ⟨?_, ?_, ?_⟩
    · simp only [process_lines]
      rw [e1]
      exact r1
    · simp only [process_lines]
      rw [e1, e2, r2]
    · simp only [process_lines]
      exact r3.trans e3

/-- Per-file simulation invariant. -/
theorem process_metadata_file_sim (jp : JParse) (mf : IndexFile)
    (fs1 fs2 : MirrorFS) (h : crate_view fs1.files = crate_view fs2.files) :
    (process_metadata_file jp mf fs1 true).1 = fs1 ∧
    (process_metadata_file jp mf fs1 true).2 =
      (process_metadata_file jp mf fs2 false).2 ∧
    crate_view ((process_metadata_file jp mf fs2 false).1).files =
      crate_view fs2.files := by
  unfold process_metadata_file
  by_cases hskip : (mf.fname == ".git" || mf.fname == "config.json") = true
  · rw [if_pos hskip, if_pos hskip]
    exact ⟨rfl, rfl, rfl⟩
  · rw [if_neg hskip, if_neg hskip]
    exact process_lines_sim jp mf.fname mf.lines fs1 fs2 h

/-- Batch-level simulation invariant. -/
theorem process_all_sim (jp : JParse) (mfs : List (String × IndexFile)) :
    ∀ fs1 fs2 : MirrorFS, crate_view fs1.files = crate_view fs2.files →
      (process_all jp true mfs fs1).1 = fs1 ∧
      (process_all jp true mfs fs1).2 = (process_all jp false mfs fs2).2 ∧
      crate_view ((process_all jp false mfs fs2).1).files = crate_view fs2.files := by
  induction mfs with
  | nil => intro fs1 fs2 h; exact ⟨rfl, rfl, rfl⟩
  | cons mf rest ih =>
    intro fs1 fs2 h
    obtain ⟨e1, e2, e3⟩ := process_metadata_file_sim jp mf.2 fs1 fs2 h
    obtain ⟨r1, r2, r3⟩ :=
      ih fs1 ((process_metadata_file jp mf.2 fs2 false).1) (h.trans e3.symm)
    refine ⟨?_, ?_, ?_⟩
    · simp only [process_all]
      rw [e1]
      exact r1
    · simp only [process_all]
      rw [e1, e2, r2]
    · simp only [process_all]
      exact r3.trans e3

/-- C7: a simulation run leaves the filesystem untouched, and its
counters (in particular the success count) are exactly the counters of a
normal run over the identical index and mirror trees: per record the
simulation increments success precisely when the matching archive is
found, without writing. -/
theorem simulation_counts_match_normal_run (jp : JParse) (tree : List IndexDir)
    (fs : MirrorFS) :
    (organize_metadata jp tree fs true).1 = fs ∧
    (organize_metadata jp tree fs true).2 = (organize_metadata jp tree fs false).2 := by
  obtain ⟨h1, h2, _⟩ := process_all_sim jp (collect_metadata_files tree) fs fs rfl
  exact ⟨h1, h2⟩

/-- Candidate parse of one line, combining the blank filter, the brace
filter and the json.loads oracle (the guards of the per-line loop before
the vers extraction). -/
def line_record (jp : JParse) (line : String) : Option Json :=
  if (py_strip line).data = [] then none
  else if ¬ line_candidate line then none
  else jp line

/-- A line qualifies for version string v when it parses to a record
whose vers field is truthy and renders to v. -/
def line_qualifies (jp : JParse) (v : String) (line : String) : Bool :=
  match line_record jp line with
  | none => false
  | some m =>
    match json_get m "vers" with
    | none => false
    | some ver => ! json_falsy ver && pyStr ver == v

/-- The records of the qualifying lines for version string v, in file
order. -/
def qualifying_records (jp : JParse) (v : String) (lines : List String) : List Json :=
  (lines.filter (line_qualifies jp v)).filterMap (line_record jp)

/-- The per-line step factors through line_record. -/
theorem process_line_eq_record (jp : JParse) (cn : String) (dry : Bool)
    (fs : MirrorFS) (l : String) :
    process_line jp cn dry fs l = process_parsed cn dry fs (line_record jp l) := by
  unfold process_line line_record
  by_cases hb : (py_strip l).data = []
  · rw [if_pos hb, if_pos hb]
    rfl
  rw [if_neg hb, if_neg hb]
  by_cases hc : ¬ line_candidate l = true
  · rw [if_pos hc, if_pos hc]
    rfl
  rw [if_neg hc, if_neg hc]

/-- The written file is a member of the written state. -/
theorem fs_write_mem (fs : MirrorFS) (d n c : String) :
    ({ dir := d, name := n, content := c } : FSFile) ∈ (fs_write fs d n c).files := by
  simp only [fs_write]
  by_cases hx : fs.files.any (fun f => f.dir == d && f.name == n) = true
  · rw [if_pos hx]
    obtain ⟨f, hf, hmatch⟩ := List.any_eq_true.mp hx
    exact List.mem_map.mpr ⟨f, hf, by simp [hmatch]⟩
  · rw [if_neg hx]
    exact List.mem_append_right _ (List.mem_singleton.mpr rfl)

/-- A file whose (dir, name) key differs from the write target is
untouched by a write. -/
theorem fs_write_preserves_key (fs : MirrorFS) (d n c : String) (x : FSFile)
    (hx : x ∈ fs.files) (hne : ¬ (x.dir = d ∧ x.name = n)) :
    x ∈ (fs_write fs d n c).files := by
  have hbool : (x.dir == d && x.name == n) = false := by
    by_cases hd : x.dir = d
    · by_cases hn : x.name = n
      · exact absurd ⟨hd, hn⟩ hne
      · simp [hn]
    · simp [hd]
  simp only [fs_write]
  by_cases hany : fs.files.any (fun f => f.dir == d && f.name == n) = true
  · rw [if_pos hany]
    exact List.mem_map.mpr ⟨x, hx, by simp [hbool]⟩
  · rw [if_neg hany]
    exact List.mem_append_left _ hx

/-- A write never deletes a (dir, name) key: some file with that key
survives every write. -/
theorem fs_write_keeps (fs : MirrorFS) (d n c : String) (d0 n0 : String)
    (h : ∃ c0, ({ dir := d0, name := n0, content := c0 } : FSFile) ∈ fs.files) :
    ∃ c0, ({ dir := d0, name := n0, content := c0 } : FSFile) ∈ (fs_write fs d n c).files := by
  obtain ⟨c0, hc0⟩ := h
  by_cases hk : d0 = d ∧ n0 = n
  · obtain ⟨hd, hn⟩ := hk
    subst hd
    subst hn
    exact ⟨c, fs_write_mem fs d0 n0 c⟩
  · exact ⟨c0, fs_write_preserves_key fs d n c _ hc0 (by simpa using hk)⟩

/-- Middle-component injectivity of the sidecar naming scheme. -/
theorem sidecar_mid_inj (cn a b : String)
    (h : cn ++ "-" ++ a ++ ".metadata.json" = cn ++ "-" ++ b ++ ".metadata.json") :
    a = b := by
  have hd := congrArg String.data h
  simp only [String.data_append, List.append_assoc] at hd
  have h2 := List.append_cancel_left hd
  have h3 := List.append_cancel_left h2
  have h4 := List.append_cancel_right h3
  exact String.ext h4

/-- find_crate_file through the crate view of its state. -/
theorem find_crate_via_view (cn : String) (ver : Json) (fs : MirrorFS)
    (cv : List FSFile) (hcv : crate_view fs.files = cv) :
    find_crate_file cn ver fs.files =
      cv.find? (fun f => f.name == expected_crate_name cn ver) := by
  unfold find_crate_file
  rw [← find?_filter_keep _ (fun f => ! is_metadata_json f.name) fs.files
        (find_crate_pred_not_meta cn ver)]
  exact congrArg (List.find? _) hcv

/-- find_crate_file resolves through the crate view to the fixed entry
found there, for every version object rendering to v. -/
theorem find_crate_eq_cv (cn v : String) (ver : Json) (hps : pyStr ver = v)
    (fs : MirrorFS) (cv : List FSFile) (hcv : crate_view fs.files = cv) (e0 : FSFile)
    (hfind : cv.find? (fun f => f.name == cn ++ "-" ++ v ++ ".crate") = some e0) :
    find_crate_file cn ver fs.files = some e0 := by
  rw [find_crate_via_view cn ver fs cv hcv]
  simp only [expected_crate_name, hps]
  exact hfind

/-- A non-qualifying line never touches the sidecar file of version v:
either it does not reach the write, or it writes a sidecar of a
different version, whose name differs. -/
theorem process_line_preserves_sidecar (jp : JParse) (cn v : String) (l : String)
    (hq : line_qualifies jp v l = false) (fs : MirrorFS) (x : FSFile)
    (hx : x ∈ fs.files) (hname : x.name = cn ++ "-" ++ v ++ ".metadata.json") :
    x ∈ ((process_line jp cn false fs l).1).files := by
  rw [process_line_eq_record]
  unfold line_qualifies at hq
  cases hlr : line_record jp l with
  | none => exact hx
  | some m =>
    rw [hlr] at hq
    have hq2 : (match json_get m "vers" with
        | none => false
        | some ver => ! json_falsy ver && pyStr ver == v) = false := hq
    simp only [process_parsed]
    cases hv : json_get m "vers" with
    | none => exact hx
    | some ver =>
      rw [hv] at hq2
      have hq3 : (! json_falsy ver && pyStr ver == v) = false := hq2
      simp only [process_version]
      by_cases hf : json_falsy ver = true
      · rw [if_pos hf]
        exact hx
      rw [if_neg hf]
      have hfb : json_falsy ver = false := Bool.eq_false_iff.mpr hf
      have hpne : pyStr ver ≠ v := by
        intro he
        rw [hfb, he] at hq3
        simp at hq3
      cases hfc : find_crate_file cn ver fs.files with
      | none => exact hx
      | some ce =>
        simp only [process_found]
        refine fs_write_preserves_key fs ce.dir (sidecar_name cn ver) _ x hx ?_
        rintro ⟨-, hn2⟩
        apply hpne
        apply sidecar_mid_inj cn
        exact hn2.symm.trans hname

/-- Decomposition of a qualifying line into its record and version. -/
theorem line_qualifies_elim (jp : JParse) (v l : String)
    (hq : line_qualifies jp v l = true) :
    ∃ m ver, line_record jp l = some m ∧ json_get m "vers" = some ver ∧
      json_falsy ver = false ∧ pyStr ver = v := by
  unfold line_qualifies at hq
  cases hlr : line_record jp l with
  | none =>
    rw [hlr] at hq
    exact absurd hq Bool.false_ne_true
  | some m =>
    rw [hlr] at hq
    have hq2 : (match json_get m "vers" with
        | none => false
        | some ver => ! json_falsy ver && pyStr ver == v) = true := hq
    cases hv : json_get m "vers" with
    | none =>
      rw [hv] at hq2
      exact absurd hq2 Bool.false_ne_true
    | some ver =>
      rw [hv] at hq2
      have hq3 : (! json_falsy ver && pyStr ver == v) = true := hq2
      obtain ⟨hfv, hbeq⟩ : (! json_falsy ver) = true ∧ (pyStr ver == v) = true := by
        simpa using hq3
      exact ⟨m, ver, rfl, hv, by simpa using hfv, by simpa using hbeq⟩

/-- Master induction: over any state with the crate view cv in which the
archive of version v resolves to the entry e0, a normal-mode pass over
the lines keeps the crate view, writes the sidecar of the last
qualifying record beside e0, and (when no line qualifies) preserves an
already present sidecar of version v. -/
theorem process_lines_last_sidecar (jp : JParse) (cn v : String) (cv : List FSFile)
    (e0 : FSFile)
    (hfind : cv.find? (fun f => f.name == cn ++ "-" ++ v ++ ".crate") = some e0) :
    ∀ (lines : List String) (fs : MirrorFS), crate_view fs.files = cv →
      crate_view ((process_lines jp cn false lines fs).1).files = cv ∧
      (∀ m : Json, (qualifying_records jp v lines).getLast? = some m →
        ({ dir := e0.dir, name := cn ++ "-" ++ v ++ ".metadata.json",
           content := dumpJson 0 m } : FSFile) ∈
          ((process_lines jp cn false lines fs).1).files) ∧
      (∀ m : Json, qualifying_records jp v lines = [] →
        ({ dir := e0.dir, name := cn ++ "-" ++ v ++ ".metadata.json",
           content := dumpJson 0 m } : FSFile) ∈ fs.files →
        ({ dir := e0.dir, name := cn ++ "-" ++ v ++ ".metadata.json",
           content := dumpJson 0 m } : FSFile) ∈
          ((process_lines jp cn false lines fs).1).files) := by
  intro lines
  induction lines with
  | nil =>
    intro fs hfs
    refine ⟨hfs, ?_, ?_⟩
    · intro m hm
      simp [qualifying_records] at hm
    · intro m _ hmem
      exact hmem
  | cons l rest ih =>
    intro fs hfs
    have hcv2 : crate_view ((process_line jp cn false fs l).1).files = cv :=
      ((process_line_sim jp cn l fs fs rfl).2.2).trans hfs
    obtain ⟨ihA, ihB, ihC⟩ := ih ((process_line jp cn false fs l).1) hcv2
    by_cases hq : line_qualifies jp v l = true
    · obtain ⟨m1, ver1, hlr, hv, hfb, hps⟩ := line_qualifies_elim jp v l hq
      have hfind1 : find_crate_file cn ver1 fs.files = some e0 :=
        find_crate_eq_cv cn v ver1 hps fs cv hfs e0 hfind
      have hstep : process_line jp cn false fs l =
          (fs_write fs e0.dir (sidecar_name cn ver1) (dumpJson 0 m1), 1, 1) := by
        rw [process_line_eq_record, hlr]
        simp only [process_parsed]
        rw [hv]
        simp only [process_version]
        rw [if_neg (by simp [hfb]), hfind1]
        rfl
      have hscn : sidecar_name cn ver1 = cn ++ "-" ++ v ++ ".metadata.json" := by
        unfold sidecar_name
        rw [hps]
      have hqr_cons : qualifying_records jp v (l :: rest) =
          m1 :: qualifying_records jp v rest := by
        unfold qualifying_records
        rw [List.filter_cons, if_pos hq]
        simp [List.filterMap_cons, hlr]
      refine ⟨ihA, ?_, ?_⟩
      · intro m hm
        rw [hqr_cons] at hm
        rcases hrest : qualifying_records jp v rest with _ | ⟨x, xs⟩
        · rw [hrest] at hm
          have hm1 : m1 = m := by simpa using hm
          subst hm1
          refine ihC m1 hrest ?_
          rw [hstep, ← hscn]
          exact fs_write_mem fs e0.dir (sidecar_name cn ver1) (dumpJson 0 m1)
        · rw [hrest] at hm
          rw [List.getLast?_cons_cons] at hm
          exact ihB m (by rw [hrest]; exact hm)
      · intro m hemp
        rw [hqr_cons] at hemp
        exact absurd hemp (List.cons_ne_nil _ _)
    · have hqf : line_qualifies jp v l = false := Bool.eq_false_iff.mpr hq
      have hqr_skip : qualifying_records jp v (l :: rest) =
          qualifying_records jp v rest := by
        unfold qualifying_records
        rw [List.filter_cons, if_neg (by simp [hqf])]
      refine ⟨ihA, ?_, ?_⟩
      · intro m hm
        rw [hqr_skip] at hm
        exact ihB m hm
      · intro m hemp hmem
        rw [hqr_skip] at hemp
        refine ihC m hemp ?_
        exact process_line_preserves_sidecar jp cn v l hqf fs _ hmem rfl

/-- C6 (amended): if an index file named cn has at least one line whose
record carries a truthy vers rendering to v, and an archive named
cn-v.crate exists somewhere in the mirror, then after a non-simulated
run a sidecar cn-v.metadata.json exists in the directory of that archive
(the first one in walk order), and its content is the 2-space-indented
serialization of the record of the LAST such line of the file: later
lines with the same version overwrite the sidecars written by earlier
ones. -/
theorem sidecar_beside_archive_for_last_record (jp : JParse) (cn v : String)
    (lines : List String) (fs0 : MirrorFS) (m : Json)
    (h1 : cn ≠ ".git") (h2 : cn ≠ "config.json")
    (hlast : (qualifying_records jp v lines).getLast? = some m)
    (hcrate : ∃ f ∈ fs0.files, f.name = cn ++ "-" ++ v ++ ".crate") :
    ∃ d : String,
      (∃ f ∈ (process_metadata_file jp { fname := cn, lines := lines } fs0 false).1.files,
        f.dir = d ∧ f.name = cn ++ "-" ++ v ++ ".crate") ∧
      ({ dir := d, name := cn ++ "-" ++ v ++ ".metadata.json",
         content := dumpJson 0 m } : FSFile) ∈
        (process_metadata_file jp { fname := cn, lines := lines } fs0 false).1.files := by
  have hex : ∃ f ∈ crate_view fs0.files,
      (fun f : FSFile => f.name == cn ++ "-" ++ v ++ ".crate") f = true := by
    obtain ⟨f, hf, hn⟩ := hcrate
    refine ⟨f, List.mem_filter.mpr ⟨hf, ?_⟩, by simp [hn]⟩
    rw [hn, crate_not_meta]
    rfl
  obtain ⟨e0, hfind⟩ : ∃ e0, (crate_view fs0.files).find?
      (fun f => f.name == cn ++ "-" ++ v ++ ".crate") = some e0 :=
    Option.isSome_iff_exists.mp (List.find?_isSome.mpr hex)
  have he0p := @List.find?_some FSFile (fun f => f.name == cn ++ "-" ++ v ++ ".crate")
    e0 (crate_view fs0.files) hfind
  have he0name : e0.name = cn ++ "-" ++ v ++ ".crate" := eq_of_beq he0p
  have he0mem : e0 ∈ crate_view fs0.files := List.mem_of_find?_eq_some hfind
  obtain ⟨mA, mB, -⟩ :=
    process_lines_last_sidecar jp cn v (crate_view fs0.files) e0 hfind lines fs0 rfl
  have hpm : process_metadata_file jp { fname := cn, lines := lines } fs0 false =
      process_lines jp cn false lines fs0 := by
    unfold process_metadata_file
    rw [if_neg (by simp [h1, h2])]
  refine ⟨e0.dir, ⟨e0, ?_, rfl, he0name⟩, ?_⟩
  · rw [hpm]
    have hmem2 : e0 ∈ crate_view ((process_lines jp cn false lines fs0).1).files := by
      rw [mA]
      exact he0mem
    exact (List.mem_filter.mp hmem2).1
  · rw [hpm]
    exact mB m hlast

/-- First demo index line: version 1.0.0, payload field a = 1. -/
def demo_line1 : String := "\x7b\"vers\": \"1.0.0\", \"a\": 1\x7d"

/-- Second demo index line: same version 1.0.0, payload field a = 2. -/
def demo_line2 : String := "\x7b\"vers\": \"1.0.0\", \"a\": 2\x7d"

/-- Record of the first demo line. -/
def demo_rec1 : Json := Json.obj [("vers", Json.str "1.0.0"), ("a", Json.num 1)]

/-- Record of the second demo line. -/
def demo_rec2 : Json := Json.obj [("vers", Json.str "1.0.0"), ("a", Json.num 2)]

/-- Concrete json.loads oracle for the demo lines (each maps to its
parsed record, everything else fails to parse). -/
def demo_parse : JParse := fun l =>
  if l = demo_line1 then some demo_rec1
  else if l = demo_line2 then some demo_rec2
  else none

/-- The demo archive sitting in mirror directory M. -/
def demo_crate : FSFile := { dir := "M", name := "foo-1.0.0.crate", content := "" }

/-- The demo mirror state. -/
def demo_mirror : MirrorFS := { files := [demo_crate], wlog := [] }

/-- Counterexample to C6 as stated: the index file foo contains the JSON
line demo_line1 with vers 1.0.0 and the archive foo-1.0.0.crate exists,
yet after the run no sidecar carries the key/value pairs of demo_line1:
the only sidecar holds the serialization of the later record demo_rec2,
which differs from that of demo_rec1. -/
theorem sidecar_not_first_record_counterexample :
    demo_parse demo_line1 = some demo_rec1 ∧
    json_get demo_rec1 "vers" = some (Json.str "1.0.0") ∧
    demo_crate ∈ demo_mirror.files ∧
    (process_metadata_file demo_parse { fname := "foo", lines := [demo_line1, demo_line2] }
        demo_mirror false).1.files =
      [demo_crate,
        { dir := "M", name := "foo-1.0.0.metadata.json", content := dumpJson 0 demo_rec2 }] ∧
    dumpJson 0 demo_rec2 ≠ dumpJson 0 demo_rec1 := by
  refine ⟨rfl, rfl, by decide, by decide, by decide⟩

/-- Witness for the amended C6 at the demo input: the last qualifying
record demo_rec2 is the sidecar content beside the archive. -/
theorem sidecar_beside_archive_for_last_record_witness :
    ∃ d : String,
      (∃ f ∈ (process_metadata_file demo_parse
          { fname := "foo", lines := [demo_line1, demo_line2] } demo_mirror false).1.files,
        f.dir = d ∧ f.name = "foo" ++ "-" ++ "1.0.0" ++ ".crate") ∧
      ({ dir := d, name := "foo" ++ "-" ++ "1.0.0" ++ ".metadata.json",
         content := dumpJson 0 demo_rec2 } : FSFile) ∈
        (process_metadata_file demo_parse
          { fname := "foo", lines := [demo_line1, demo_line2] } demo_mirror false).1.files :=
  sidecar_beside_archive_for_last_record demo_parse "foo" "1.0.0"
    [demo_line1, demo_line2] demo_mirror demo_rec2 (by decide) (by decide) rfl
    ⟨demo_crate, by decide, by decide⟩

/-- A (dir, name) key present before the found-stage survives it. -/
theorem process_found_keeps (cn : String) (dry : Bool) (fs : MirrorFS)
    (m ver : Json) (oc : Option FSFile) (d0 n0 : String)
    (h : ∃ c0, ({ dir := d0, name := n0, content := c0 } : FSFile) ∈ fs.files) :
    ∃ c0, ({ dir := d0, name := n0, content := c0 } : FSFile) ∈
      ((process_found cn dry fs m ver oc).1).files := by
  cases oc with
  | none => exact h
  | some ce =>
    cases dry with
    | true => exact h
    | false => exact fs_write_keeps fs ce.dir (sidecar_name cn ver) (dumpJson 0 m) d0 n0 h

/-- A (dir, name) key survives the version stage. -/
theorem process_version_keeps (cn : String) (dry : Bool) (fs : MirrorFS)
    (m : Json) (ov : Option Json) (d0 n0 : String)
    (h : ∃ c0, ({ dir := d0, name := n0, content := c0 } : FSFile) ∈ fs.files) :
    ∃ c0, ({ dir := d0, name := n0, content := c0 } : FSFile) ∈
      ((process_version cn dry fs m ov).1).files := by
  cases ov with
  | none => exact h
  | some ver =>
    simp only [process_version]
    by_cases hf : json_falsy ver = true
    · rw [if_pos hf]
      exact h
    · rw [if_neg hf]
      exact process_found_keeps cn dry fs m ver _ d0 n0 h

/-- A (dir, name) key survives the parse stage. -/
theorem process_parsed_keeps (cn : String) (dry : Bool) (fs : MirrorFS)
    (om : Option Json) (d0 n0 : String)
    (h : ∃ c0, ({ dir := d0, name := n0, content := c0 } : FSFile) ∈ fs.files) :
    ∃ c0, ({ dir := d0, name := n0, content := c0 } : FSFile) ∈
      ((process_parsed cn dry fs om).1).files := by
  cases om with
  | none => exact h
  | some m =>
    simp only [process_parsed]
    exact process_version_keeps cn dry fs m _ d0 n0 h

/-- A (dir, name) key survives one line. -/
theorem process_line_keeps (jp : JParse) (cn : String) (dry : Bool) (fs : MirrorFS)
    (l : String) (d0 n0 : String)
    (h : ∃ c0, ({ dir := d0, name := n0, content := c0 } : FSFile) ∈ fs.files) :
    ∃ c0, ({ dir := d0, name := n0, content := c0 } : FSFile) ∈
      ((process_line jp cn dry fs l).1).files := by
  rw [process_line_eq_record]
  exact process_parsed_keeps cn dry fs (line_record jp l) d0 n0 h

/-- A (dir, name) key survives a whole file. -/
theorem process_lines_keeps (jp : JParse) (cn : String) (dry : Bool)
    (lines : List String) (d0 n0 : String) :
    ∀ fs : MirrorFS,
      (∃ c0, ({ dir := d0, name := n0, content := c0 } : FSFile) ∈ fs.files) →
      ∃ c0, ({ dir := d0, name := n0, content := c0 } : FSFile) ∈
        ((process_lines jp cn dry lines fs).1).files := by
  induction lines with
  | nil => intro fs h; exact h
  | cons l rest ih =>
    intro fs h
    exact ih ((process_line jp cn dry fs l).1) (process_line_keeps jp cn dry fs l d0 n0 h)

/-- A (dir, name) key survives process_metadata_file. -/
theorem process_metadata_file_keeps (jp : JParse) (mf : IndexFile) (dry : Bool)
    (fs : MirrorFS) (d0 n0 : String)
    (h : ∃ c0, ({ dir := d0, name := n0, content := c0 } : FSFile) ∈ fs.files) :
    ∃ c0, ({ dir := d0, name := n0, content := c0 } : FSFile) ∈
      ((process_metadata_file jp mf fs dry).1).files := by
  unfold process_metadata_file
  by_cases hskip : (mf.fname == ".git" || mf.fname == "config.json") = true
  · rw [if_pos hskip]
    exact h
  · rw [if_neg hskip]
    exact process_lines_keeps jp mf.fname dry mf.lines d0 n0 fs h

/-- A (dir, name) key survives the whole batch. -/
theorem process_all_keeps (jp : JParse) (dry : Bool)
    (mfs : List (String × IndexFile)) (d0 n0 : String) :
    ∀ fs : MirrorFS,
      (∃ c0, ({ dir := d0, name := n0, content := c0 } : FSFile) ∈ fs.files) →
      ∃ c0, ({ dir := d0, name := n0, content := c0 } : FSFile) ∈
        ((process_all jp dry mfs fs).1).files := by
  induction mfs with
  | nil => intro fs h; exact h
  | cons mf rest ih =>
    intro fs h
    exact ih ((process_metadata_file jp mf.2 fs dry).1)
      (process_metadata_file_keeps jp mf.2 dry fs d0 n0 h)

/-- The demo index tree containing the single-line file foo. -/
def demo_tree : List IndexDir :=
  [{ root := "idx", files := [{ fname := "foo", lines := [demo_line1] }] }]

/-- State after a first normal run of the indexer on the demo tree, with
a fresh (empty) write log for the next run. -/
def demo_fs1 : MirrorFS :=
  { files := (organize_metadata demo_parse demo_tree demo_mirror false).1.files
    wlog := [] }

/-- Counterexample to C9 as stated: the sidecar for (foo, 1.0.0) already
exists after the first run, yet a rerun on the same trees performs a
write to exactly that sidecar path again (the write log of the second
run is that one rewrite), so the sidecar IS refreshed; the rewrite
carries identical content, so the file list is unchanged. -/
theorem rerun_rewrites_sidecar_counterexample :
    ({ dir := "M", name := "foo-1.0.0.metadata.json",
       content := dumpJson 0 demo_rec1 } : FSFile) ∈ demo_fs1.files ∧
    (organize_metadata demo_parse demo_tree demo_fs1 false).1.wlog =
      [{ dir := "M", name := "foo-1.0.0.metadata.json",
         content := dumpJson 0 demo_rec1 }] ∧
    (organize_metadata demo_parse demo_tree demo_fs1 false).1.files = demo_fs1.files := by
  refine ⟨by decide, by decide, by decide⟩

/-- C9 (amended): a sidecar is written on EVERY successful match, not
only the first: a rerun rewrites an already-existing sidecar (with the
serialization of the same record, leaving its content unchanged), and a
run never deletes a file: every (dir, name) key present before a run is
still present after it, in any mode. -/
theorem indexer_rerun_preserves_and_rewrites :
    (∀ (jp : JParse) (tree : List IndexDir) (fs : MirrorFS) (dry : Bool) (d0 n0 : String),
      (∃ c0, ({ dir := d0, name := n0, content := c0 } : FSFile) ∈ fs.files) →
      ∃ c0, ({ dir := d0, name := n0, content := c0 } : FSFile) ∈
        ((organize_metadata jp tree fs dry).1).files) ∧
    (organize_metadata demo_parse demo_tree demo_fs1 false).1.files = demo_fs1.files ∧
    (organize_metadata demo_parse demo_tree demo_fs1 false).1.wlog ≠ [] := by
  refine ⟨?_, by decide, by decide⟩
  intro jp tree fs dry d0 n0 h
  exact process_all_keeps jp dry (collect_metadata_files tree) d0 n0 fs h

/-- Witness for the amended C9: the demo archive key survives the demo
run. -/
theorem indexer_rerun_preserves_and_rewrites_witness :
    ∃ c0, ({ dir := "M", name := "foo-1.0.0.crate", content := c0 } : FSFile) ∈
      ((organize_metadata demo_parse demo_tree demo_mirror false).1).files :=
  indexer_rerun_preserves_and_rewrites.1 demo_parse demo_tree demo_mirror false
    "M" "foo-1.0.0.crate" ⟨"", by decide⟩
